import Mathlib

/-!
Verification of the teleprompter layout-and-scroll engine (src/teleprompter.py).

Strings from the Python source are modelled as lists of characters (`Str`).
Floating-point state (scroll offset, speeds) is modelled over `ℚ`, with the
float literals `16.667`, `0.10`, `0.75` taken at their decimal values.
Text measurement (`QFontMetrics`) is an external collaborator and is passed in
as a function `fm : Str → ℕ` giving each string's horizontal advance.
-/

abbrev Str := List Char

/-- Python whitespace characters relevant to `str.strip` / `str.split`. -/
def pySpace (c : Char) : Bool :=
  c = ' ' || c = '\t' || c = '\n' || c = '\r' || c = '\x0b' || c = '\x0c'

/-- Python `str.strip()`: drop leading and trailing whitespace. -/
def pystrip (cs : Str) : Str :=
  ((cs.dropWhile pySpace).reverse.dropWhile pySpace).reverse

/-- Helper for `pySplit`: accumulates the current (reversed) word. -/
def pySplitAux : Str → Str → List Str
  | [], cur => if cur = [] then [] else [cur.reverse]
  | c :: rest, cur =>
      if pySpace c then
        if cur = [] then pySplitAux rest []
        else cur.reverse :: pySplitAux rest []
      else pySplitAux rest (c :: cur)

/-- Python `str.split()` with no argument: split on whitespace runs, no empties. -/
def pySplit (cs : Str) : List Str := pySplitAux cs []

/-- Python `text.split('\n')`: split at every newline, keeping empty pieces. -/
def splitNl : Str → List Str
  | [] => [[]]
  | '\n' :: rest => [] :: splitNl rest
  | c :: rest =>
      match splitNl rest with
      | [] => [[c]]
      | l :: ls => (c :: l) :: ls

/-- Index of the first occurrence of `]]`, if any. -/
def findClose : Str → Option Nat
  | ']' :: ']' :: _ => some 0
  | _ :: rest => (findClose rest).map (· + 1)
  | [] => none

/-- Given the text after an opening `[[`, match the lazy `(.+?)\]\]` part of
`_NOTE_RE`: at least one character of content, then the earliest `]]`.
Returns `(content, textAfterMatch)`. -/
def scanNote (cs : Str) : Option (Str × Str) :=
  match cs with
  | [] => none
  | c :: rest =>
      match findClose rest with
      | some k => some (c :: rest.take k, rest.drop (k + 2))
      | none => none

/-- Result of `_NOTE_RE.search(raw)` followed by `.group(1)`: the first (leftmost,
non-greedy) `[[...]]` content, if any. -/
def noteSearch : Str → Option Str
  | '[' :: '[' :: rest =>
      match scanNote rest with
      | some (p, _) => some p
      | none => none
  | _ :: rest => noteSearch rest
  | [] => none

/-- Fuel-indexed body of `noteSub`; the fuel is only a structural-recursion
bound and never runs out when it starts at the length of the text, because a
match always consumes at least the four bracket characters. -/
def noteSubAux : Nat → Str → Str
  | 0, cs => cs
  | fuel + 1, cs =>
      match cs with
      | '[' :: '[' :: rest =>
          match scanNote rest with
          | some (_, tail) => noteSubAux fuel tail
          | none => '[' :: '[' :: rest
      | c :: rest => c :: noteSubAux fuel rest
      | [] => []

/-- Python `_NOTE_RE.sub('', raw)`: remove every (non-overlapping, leftmost,
non-greedy) `[[...]]` match. -/
def noteSub (cs : Str) : Str := noteSubAux cs.length cs

/-- Python `' '.join(words)`. -/
def joinWords : List Str → Str
  | [] => []
  | [w] => w
  | w :: ws => w ++ ' ' :: joinWords ws

/-- The `[PAUSE]` paragraph tag (`_PAUSE_TAG`). -/
def pauseTag : Str := "[PAUSE]".toList

/-- Text alignment (`Qt.AlignLeft` / `AlignHCenter` / `AlignRight`). -/
inductive Align where
  | left
  | center
  | right
deriving DecidableEq

/-- The function `_line_x`: left x coordinate for a line of width `w`, margin 40. -/
def lineX (w : Int) (a : Align) (win_w : Int) : Int :=
  match a with
  | .center => max 0 ((win_w - w) / 2)
  | .right => max 0 (win_w - 40 - w)
  | .left => 40

/-- Total advance of a line: word widths plus a space advance between words
(`sum(fm.horizontalAdvance(w) for w in words) + sp_w * (len(words) - 1)`). -/
def lineWidth (fm : Str → Nat) (sp_w : Nat) (ws : List Str) : Int :=
  ((ws.map fm).sum : Int) + (sp_w : Int) * ((ws.length : Int) - 1)

/-- The per-word x accumulation loop inside `_word_xs`. -/
def wordXsAux (fm : Str → Nat) (sp_w : Nat) : List Str → Int → List (Str × Int)
  | [], _ => []
  | w :: ws, x => (w, x) :: wordXsAux fm sp_w ws (x + fm w + sp_w)

/-- The helper `_word_xs`: cached (word, x) pairs for one wrapped line. -/
def wordXs (fm : Str → Nat) (sp_w : Nat) (a : Align) (W : Int)
    (ws : List Str) : List (Str × Int) :=
  wordXsAux fm sp_w ws (lineX (lineWidth fm sp_w ws) a W)

/-- The greedy word-fill loop of `_ensure_layout` over one paragraph's words:
accumulate while `cur_w + needed <= mw`, flush on overflow, flush the tail. -/
def wrapWords (fm : Str → Nat) (sp_w : Nat) (mw : Int) (a : Align) (W : Int) :
    List Str → List Str → Nat → List Str → List (List (Str × Int)) →
    List Str × List (List (Str × Int))
  | [], cur_ws, _, lines, wxs =>
      if cur_ws = [] then (lines, wxs)
      else (lines ++ [joinWords cur_ws], wxs ++ [wordXs fm sp_w a W cur_ws])
  | word :: rest, cur_ws, cur_w, lines, wxs =>
      let ww := fm word
      let needed := if cur_ws = [] then ww else sp_w + ww
      if ((cur_w : Int) + (needed : Int) ≤ mw) then
        wrapWords fm sp_w mw a W rest (cur_ws ++ [word]) (cur_w + needed) lines wxs
      else if cur_ws = [] then
        wrapWords fm sp_w mw a W rest [word] ww lines wxs
      else
        wrapWords fm sp_w mw a W rest [word] ww
          (lines ++ [joinWords cur_ws]) (wxs ++ [wordXs fm sp_w a W cur_ws])

/-- The layout snapshot built by `_ensure_layout`: display lines, cached word
x-offsets, pause-line indices, note map, and total pixel height. -/
structure Layout where
  lines : List Str
  wxs : List (List (Str × Int))
  pauses : List Nat
  notes : List (Nat × Str)
  total : ℚ
deriving DecidableEq

/-- One iteration of the `for raw in self.text.split('\n')` loop of
`_ensure_layout`. -/
def paraStep (fm : Str → Nat) (sp_w : Nat) (a : Align) (W mw : Int)
    (acc : Layout) (raw : Str) : Layout :=
  let note : Option Str := (noteSearch raw).map pystrip
  let para : Str := pystrip (noteSub raw)
  let fi := acc.lines.length
  let acc1 :=
    if para = [] then
      { acc with lines := acc.lines ++ [[]], wxs := acc.wxs ++ [[]] }
    else if para = pauseTag then
      { acc with pauses := acc.pauses ++ [acc.lines.length],
                 lines := acc.lines ++ [pauseTag], wxs := acc.wxs ++ [[]] }
    else
      let r := wrapWords fm sp_w mw a W (pySplit para) [] 0 acc.lines acc.wxs
      { acc with lines := r.1, wxs := r.2 }
  match note with
  | some n => { acc1 with notes := acc1.notes ++ [(fi, n)] }
  | none => acc1

/-- The rebuild path of `_ensure_layout`: parse + wrap every paragraph, then
record the total height `len(lines) * lh`. -/
def buildLayout (fm : Str → Nat) (sp_w lh : Nat) (a : Align) (W : Int)
    (text : Str) : Layout :=
  let acc := (splitNl text).foldl (paraStep fm sp_w a W (W - 80))
    { lines := [], wxs := [], pauses := [], notes := [], total := 0 }
  { acc with total := ((acc.lines.length * lh : Nat) : ℚ) }

/-- Lockstep well-formedness of a layout snapshot: the display-line list and
the word-offset list have equal length, every pause index has an empty
word-offset entry, and every empty display line has an empty word-offset
entry. -/
def LayoutLockstep (L : Layout) : Prop :=
  L.lines.length = L.wxs.length ∧
  (∀ p ∈ L.pauses, L.wxs[p]? = some []) ∧
  (∀ i : Nat, L.lines[i]? = some [] → L.wxs[i]? = some [])

/-- Python `int(q)` on a float/rational: truncation toward zero. -/
def pyint (q : ℚ) : Int := if 0 ≤ q then ⌊q⌋ else ⌈q⌉

/-- Python 3 `round(q)` to the nearest integer, ties to the even neighbour. -/
def pyRound (q : ℚ) : Int :=
  if q - ⌊q⌋ < 1/2 then ⌊q⌋
  else if (1/2 : ℚ) < q - ⌊q⌋ then ⌊q⌋ + 1
  else if ⌊q⌋ % 2 = 0 then ⌊q⌋ else ⌊q⌋ + 1

/-- The table `_ALPHA_LUT`: `[max(0, 255 - int(d * 0.75)) for d in range(512)]`. -/
def _ALPHA_LUT : List Int :=
  (List.range 512).map (fun (d : Nat) => max 0 (255 - pyint ((d : ℚ) * (3/4))))

/-- Modelled from the spec: the spec's stated fade formula
`max(0, 255 − round(d × 0.75))` (§4.4), using Python rounding; stated for
comparison with the source's `_ALPHA_LUT`, which uses `int` truncation. -/
def specAlphaRound (d : Nat) : Int := max 0 (255 - pyRound ((d : ℚ) * (3/4)))

/-- The playback state touched by `_scroll_step` and the keyboard/speed
handlers: scroll offset, playing flag, manual speed, mic auto-speed fields,
focus-line tracker and the progress throttle counter. -/
structure ScrollE where
  scroll_y : ℚ
  is_playing : Bool
  speed : ℚ
  auto_speed_enabled : Bool
  mic_smooth : ℚ
  mic_target : ℚ
  last_fl : Int
  prog_frame : Nat
deriving DecidableEq

/-- The low-pass update `self._mic_smooth += 0.10 * (target - smooth)` that
`_scroll_step` performs when auto-speed is enabled. -/
def micSmoothNext (e : ScrollE) : ℚ :=
  if e.auto_speed_enabled then e.mic_smooth + (1/10) * (e.mic_target - e.mic_smooth)
  else e.mic_smooth

/-- Effective speed of a tick: `max(0.0, smoothed)` under auto-speed,
otherwise the manual speed. -/
def effSpeed (e : ScrollE) : ℚ :=
  if e.auto_speed_enabled then max 0 (micSmoothNext e) else e.speed

/-- The clamp `dt_ms = max(1, min(self._elapsed.restart(), 100))`. -/
def clampDt (dt : Int) : Int := max 1 (min dt 100)

/-- The advanced offset `scroll_y + (eff / 16.667) * dt_ms` of one tick. -/
def advanceY (dt : Int) (e : ScrollE) : ℚ :=
  e.scroll_y + effSpeed e / (16667/1000) * ((clampDt dt : Int) : ℚ)

/-- The focus-line index `int(scroll_y / lh)` computed after advancing. -/
def focusLine (lh : Nat) (dt : Int) (e : ScrollE) : Int :=
  pyint (advanceY dt e / (lh : ℚ))

/-- The method `TeleprompterWindow._scroll_step`, one timer tick: clamp `dt`, smooth the
mic speed, advance `scroll_y`, snap-and-pause when the focus line newly lands
on a pause line (early return), otherwise clamp at the total height and step
the progress throttle counter. The layout inputs (`lh`, pause set, total
height) are the current cached layout, which `_scroll_step` refreshes via
`_ensure_layout` before using them. -/
def scrollStep (lh : Nat) (pauses : List Int) (total : ℚ) (dt : Int)
    (e : ScrollE) : ScrollE :=
  let sm := micSmoothNext e
  let y1 := advanceY dt e
  let fl := focusLine lh dt e
  if 0 < lh ∧ fl ≠ e.last_fl ∧ fl ∈ pauses then
    { e with scroll_y := (fl : ℚ) * (lh : ℚ), mic_smooth := sm,
             last_fl := fl, is_playing := false }
  else
    let lf := if 0 < lh ∧ fl ≠ e.last_fl then fl else e.last_fl
    let y2 := if total ≤ y1 then total else y1
    let pl := if total ≤ y1 then false else e.is_playing
    let pf := if 8 ≤ e.prog_frame + 1 then 0 else e.prog_frame + 1
    { e with scroll_y := y2, mic_smooth := sm, last_fl := lf,
             is_playing := pl, prog_frame := pf }

/-- The pause-snap branch condition of `_scroll_step`. -/
def pauseHit (lh : Nat) (pauses : List Int) (dt : Int) (e : ScrollE) : Prop :=
  0 < lh ∧ focusLine lh dt e ≠ e.last_fl ∧ focusLine lh dt e ∈ pauses

/-- Handler `keyPressEvent`, `Qt.Key_Left`: `scroll_y = max(0.0, scroll_y - 80)`. -/
def keyLeft (e : ScrollE) : ScrollE :=
  { e with scroll_y := max 0 (e.scroll_y - 80) }

/-- Handler `keyPressEvent`, `Qt.Key_Right`: `scroll_y += 80` (no upper clamp). -/
def keyRight (e : ScrollE) : ScrollE :=
  { e with scroll_y := e.scroll_y + 80 }

/-- Handler `_speed_up`: `speed = min(speed + 0.5, 20.0)`. -/
def speedUp (e : ScrollE) : ScrollE :=
  { e with speed := min (e.speed + 1/2) 20 }

/-- Handler `_speed_dn`: `speed = max(speed - 0.5, 0.5)`. -/
def speedDn (e : ScrollE) : ScrollE :=
  { e with speed := max (e.speed - 1/2) (1/2) }

/-- Setter `ControlPanel._on_speed` reached through the speed slider: the slider's
range is set to `[1, 40]` (`self._speed_sl.setRange(1, 40)`) and Qt clamps any
requested slider value into that range, after which `_on_speed` stores
`v / 2.0` as the manual speed. -/
def onSpeedSlider (v : Int) : ℚ := ((max 1 (min v 40) : Int) : ℚ) / 2

/-- The external Metrics Provider (`QFont`/`QFontMetrics`): for a font
family and point size it yields the raw line spacing, the ascent, and the
horizontal advance of a string. Treated as a pure function of the font. -/
structure MetricsProvider where
  lineSpacing : String → Nat → Nat
  ascent : String → Nat → Nat
  advance : String → Nat → Str → Nat

instance decEqKeyTail : DecidableEq ((String × Nat × ℚ) × Align) :=
  instDecidableEqProd

instance decEqKeyTail2 : DecidableEq (Int × (String × Nat × ℚ) × Align) :=
  instDecidableEqProd

instance decEqLayoutKey : DecidableEq (Str × Int × (String × Nat × ℚ) × Align) :=
  instDecidableEqProd

/-- The engine fields read and written by `_ensure_font` / `_ensure_layout`:
current settings, the font-metrics cache keyed by
`(font_family, font_size, line_spacing_factor)`, and the layout cache keyed by
`(text, width, font_key, text_align)`. `rebuilds` counts layout rebuilds; it
is instrumentation for the cache-hit property and has no Python counterpart. -/
structure Eng where
  text : Str
  width : Int
  font_family : String
  font_size : Nat
  line_spacing_factor : ℚ
  text_align : Align
  font_key : Option (String × Nat × ℚ)
  f_asc : Nat
  f_line_h : Nat
  f_sp_w : Nat
  layout_key : Option (Str × Int × (String × Nat × ℚ) × Align)
  l_layout : Layout
  rebuilds : Nat
deriving DecidableEq

/-- The key `(self.font_family, self.font_size, self.line_spacing_factor)`. -/
def fontKeyOf (e : Eng) : String × Nat × ℚ :=
  (e.font_family, e.font_size, e.line_spacing_factor)

/-- Method `_ensure_font`: on key match return unchanged; otherwise query the
Metrics Provider, cache ascent, line height
`max(1, int(lineSpacing * factor))` and the space advance, store the new key,
and clear the layout key (font changed → layout invalid). -/
def ensureFont (mp : MetricsProvider) (e : Eng) : Eng :=
  if e.font_key = some (fontKeyOf e) then e
  else
    { e with
      f_asc := mp.ascent e.font_family e.font_size,
      f_line_h :=
        (max 1 (pyint ((mp.lineSpacing e.font_family e.font_size : ℚ) *
          e.line_spacing_factor))).toNat,
      f_sp_w := mp.advance e.font_family e.font_size [' '],
      font_key := some (fontKeyOf e),
      layout_key := none }

/-- The key `(self.text, W, self._font_key, self.text_align)` as computed in
`_ensure_layout` after `_ensure_font` has made `_font_key` current. -/
def layoutKeyOf (e : Eng) : Str × Int × (String × Nat × ℚ) × Align :=
  (e.text, e.width, fontKeyOf e, e.text_align)

/-- Method `_ensure_layout`: first `_ensure_font`, then an O(1) key comparison that
returns immediately on match; on mismatch rebuild the whole layout snapshot
with `buildLayout` and store the new key. -/
def ensureLayout (mp : MetricsProvider) (e0 : Eng) : Eng :=
  let e := ensureFont mp e0
  if e.layout_key = some (layoutKeyOf e) then e
  else
    { e with
      l_layout := buildLayout (mp.advance e.font_family e.font_size) e.f_sp_w
        e.f_line_h e.text_align e.width e.text,
      layout_key := some (layoutKeyOf e),
      rebuilds := e.rebuilds + 1 }


/-! ### Helper lemmas -/

theorem pyint_of_nonneg {q : ℚ} (h : 0 ≤ q) : pyint q = ⌊q⌋ := if_pos h

theorem alphaLUT_length : _ALPHA_LUT.length = 512 := by
  unfold _ALPHA_LUT
  rw [List.length_map, List.length_range]

theorem alphaLUT_getD (d : Nat) (h : d < 512) :
    _ALPHA_LUT.getD d 0 = max 0 ((255 : Int) - ((3 * d) / 4 : Nat)) := by
  have hget : _ALPHA_LUT.getD d 0
      = max 0 (255 - pyint ((d : ℚ) * (3/4))) := by
    unfold _ALPHA_LUT
    rw [List.getD_eq_getElem?_getD, List.getElem?_map, List.getElem?_range h]
    rfl
  rw [hget, pyint_of_nonneg (by positivity)]
  have hq : (d : ℚ) * (3/4) = ((((3 * d : Nat) : Int) : ℚ)) / ((4 : Nat) : ℚ) := by
    push_cast
    ring
  rw [hq, Rat.floor_intCast_div_natCast]
  norm_num [Int.ofNat_tdiv]

theorem effSpeed_nonneg {e : ScrollE} (hs : 0 ≤ e.speed) : 0 ≤ effSpeed e := by
  unfold effSpeed
  split
  · exact le_max_left 0 _
  · exact hs

theorem clampDt_pos (dt : Int) : 0 < clampDt dt :=
  lt_of_lt_of_le one_pos (le_max_left 1 _)

theorem advanceY_le (dt : Int) {e : ScrollE} (hs : 0 ≤ e.speed) :
    e.scroll_y ≤ advanceY dt e := by
  unfold advanceY
  have h1 : (0 : ℚ) ≤ effSpeed e / (16667/1000) * ((clampDt dt : Int) : ℚ) := by
    apply mul_nonneg
    · exact div_nonneg (effSpeed_nonneg hs) (by norm_num)
    · exact_mod_cast (clampDt_pos dt).le
  linarith

theorem advanceY_nonneg (dt : Int) {e : ScrollE} (hy : 0 ≤ e.scroll_y)
    (hs : 0 ≤ e.speed) : 0 ≤ advanceY dt e :=
  le_trans hy (advanceY_le dt hs)

theorem scrollStep_mic_smooth (lh : Nat) (pauses : List Int) (total : ℚ)
    (dt : Int) (e : ScrollE) :
    (scrollStep lh pauses total dt e).mic_smooth = micSmoothNext e := by
  unfold scrollStep
  by_cases hc : 0 < lh ∧ focusLine lh dt e ≠ e.last_fl ∧ focusLine lh dt e ∈ pauses
  · rw [if_pos hc]
  · rw [if_neg hc]

/-! ### C2: the alpha fade table -/

/-- C2 counterexample: the table is built with `int` truncation, so at
distance 2 the entry is `255 - int(1.5) = 254`, while the claim's formula
`max(0, 255 - round(d*0.75))` gives `255 - round(1.5) = 253`. -/
theorem alpha_lut_round_cex :
    _ALPHA_LUT.getD 2 0 = 254 ∧ specAlphaRound 2 = 253 ∧
    _ALPHA_LUT.getD 2 0 ≠ specAlphaRound 2 := by
  have h1 : _ALPHA_LUT.getD 2 0 = 254 := by
    rw [alphaLUT_getD 2 (by norm_num)]
    decide
  have h2 : specAlphaRound 2 = 253 := by
    unfold specAlphaRound pyRound
    norm_num
  refine ⟨h1, h2, ?_⟩
  rw [h1, h2]
  decide

/-- C2 (amended): for every distance `d` in `[0, 512)` the alpha fade table
entry at `d` equals `max(0, 255 − int(d × 0.75))`, i.e. with the product
truncated (floored) rather than rounded to nearest; consequently the table
equals 0 for every `d ≥ 340`. -/
theorem alpha_lut_entries (d : Nat) (h : d < 512) :
    _ALPHA_LUT.getD d 0 = max 0 ((255 : Int) - ((3 * d) / 4 : Nat)) ∧
    (340 ≤ d → _ALPHA_LUT.getD d 0 = 0) := by
  refine ⟨alphaLUT_getD d h, fun hd => ?_⟩
  rw [alphaLUT_getD d h]
  omega

theorem alpha_lut_entries_witness :
    (_ALPHA_LUT.getD 100 0 = 180) ∧ (340 ≤ 345 ∧ _ALPHA_LUT.getD 345 0 = 0) := by
  refine ⟨?_, by norm_num, (alpha_lut_entries 345 (by norm_num)).2 (by norm_num)⟩
  rw [(alpha_lut_entries 100 (by norm_num)).1]
  decide

/-! ### C7: the auto-speed smoother -/

/-- C7: with auto-speed enabled each tick updates the smoothed speed by
`smoothed += 0.10 × (target − smoothed)`; the smoothed value moves
monotonically toward a constant target, the per-tick change never exceeds
`0.10 × |target − previous|`, it strictly rises while below the target, and
with target 0 it strictly decays toward 0 from any positive value. -/
theorem auto_speed_smoother (lh : Nat) (pauses : List Int) (total : ℚ)
    (dt : Int) (e : ScrollE) (ha : e.auto_speed_enabled = true) :
    (scrollStep lh pauses total dt e).mic_smooth
        = e.mic_smooth + (1/10) * (e.mic_target - e.mic_smooth) ∧
    (e.mic_smooth ≤ e.mic_target →
        e.mic_smooth ≤ (scrollStep lh pauses total dt e).mic_smooth ∧
        (scrollStep lh pauses total dt e).mic_smooth ≤ e.mic_target) ∧
    (e.mic_target ≤ e.mic_smooth →
        e.mic_target ≤ (scrollStep lh pauses total dt e).mic_smooth ∧
        (scrollStep lh pauses total dt e).mic_smooth ≤ e.mic_smooth) ∧
    |(scrollStep lh pauses total dt e).mic_smooth - e.mic_smooth|
        ≤ (1/10) * |e.mic_target - e.mic_smooth| ∧
    (e.mic_smooth < e.mic_target →
        e.mic_smooth < (scrollStep lh pauses total dt e).mic_smooth) ∧
    (e.mic_target = 0 → 0 < e.mic_smooth →
        (scrollStep lh pauses total dt e).mic_smooth < e.mic_smooth ∧
        0 < (scrollStep lh pauses total dt e).mic_smooth) := by
  have hm : (scrollStep lh pauses total dt e).mic_smooth
      = e.mic_smooth + (1/10) * (e.mic_target - e.mic_smooth) := by
    rw [scrollStep_mic_smooth]
    unfold micSmoothNext
    rw [if_pos ha]
  rw [hm]
  have habs : e.mic_smooth + (1/10) * (e.mic_target - e.mic_smooth) - e.mic_smooth
      = (1/10) * (e.mic_target - e.mic_smooth) := by ring
  refine ⟨rfl, fun h => ⟨by linarith, by linarith⟩, fun h => ⟨by linarith, by linarith⟩,
    ?_, fun h => by linarith, fun ht hs => ⟨by rw [ht]; linarith, by rw [ht]; linarith⟩⟩
  rw [habs, abs_mul, abs_of_pos (by norm_num : (0:ℚ) < 1/10)]

theorem auto_speed_smoother_witness :
    (scrollStep 10 [] 1000 16
      { scroll_y := 0, is_playing := true, speed := 2, auto_speed_enabled := true,
        mic_smooth := 1, mic_target := 2, last_fl := 0,
        prog_frame := 0 }).mic_smooth = 1 + (1/10) * (2 - 1) ∧
    (1 : ℚ) <
      (scrollStep 10 [] 1000 16
        { scroll_y := 0, is_playing := true, speed := 2, auto_speed_enabled := true,
          mic_smooth := 1, mic_target := 2, last_fl := 0,
          prog_frame := 0 }).mic_smooth :=
  ⟨(auto_speed_smoother 10 [] 1000 16
      { scroll_y := 0, is_playing := true, speed := 2, auto_speed_enabled := true,
        mic_smooth := 1, mic_target := 2, last_fl := 0,
        prog_frame := 0 } rfl).1,
   (auto_speed_smoother 10 [] 1000 16
      { scroll_y := 0, is_playing := true, speed := 2, auto_speed_enabled := true,
        mic_smooth := 1, mic_target := 2, last_fl := 0,
        prog_frame := 0 } rfl).2.2.2.2.1 (by norm_num)⟩

/-! ### C9: manual speed clamping -/

/-- C9: the manual speed is confined to [0.5, 20]: the speed slider's range
(1..40 half-units, clamped by the slider) makes any requested value below 0.5
store 0.5 and any value above 20 store 20, and the increment/decrement
handlers keep a speed inside [0.5, 20] inside that range. -/
theorem manual_speed_clamp :
    (∀ v : Int, ((1:ℚ)/2) ≤ onSpeedSlider v ∧ onSpeedSlider v ≤ 20 ∧
      (v < 1 → onSpeedSlider v = 1/2) ∧ (40 < v → onSpeedSlider v = 20)) ∧
    (∀ e : ScrollE, 1/2 ≤ e.speed → e.speed ≤ 20 →
      1/2 ≤ (speedUp e).speed ∧ (speedUp e).speed ≤ 20 ∧
      1/2 ≤ (speedDn e).speed ∧ (speedDn e).speed ≤ 20) := by
  constructor
  · intro v
    unfold onSpeedSlider
    have h1 : (1:Int) ≤ max 1 (min v 40) := le_max_left _ _
    have h2 : max 1 (min v 40) ≤ 40 := by omega
    have h1q : (1:ℚ) ≤ ((max 1 (min v 40) : Int) : ℚ) := by exact_mod_cast h1
    have h2q : ((max 1 (min v 40) : Int) : ℚ) ≤ 40 := by exact_mod_cast h2
    refine ⟨by linarith, by linarith, fun hv => ?_, fun hv => ?_⟩
    · have : max 1 (min v 40) = 1 := by omega
      rw [this]
      norm_num
    · have : max 1 (min v 40) = 40 := by omega
      rw [this]
      norm_num
  · intro e h1 h2
    unfold speedUp speedDn
    refine ⟨le_min (by linarith) (by norm_num), min_le_right _ _,
      le_max_right _ _, max_le (by linarith) (by norm_num)⟩

theorem manual_speed_clamp_witness :
    onSpeedSlider 0 = 1/2 ∧ onSpeedSlider 50 = 20 ∧
    (speedUp
      { scroll_y := 0, is_playing := false, speed := 2,
        auto_speed_enabled := false, mic_smooth := 0, mic_target := 0,
        last_fl := 0, prog_frame := 0 }).speed ≤ 20 ∧
    (1:ℚ)/2 ≤ (speedDn
      { scroll_y := 0, is_playing := false, speed := 2,
        auto_speed_enabled := false, mic_smooth := 0, mic_target := 0,
        last_fl := 0, prog_frame := 0 }).speed :=
  ⟨(manual_speed_clamp.1 0).2.2.1 (by norm_num),
   (manual_speed_clamp.1 50).2.2.2 (by norm_num),
   (manual_speed_clamp.2 _ (by norm_num) (by norm_num)).2.1,
   (manual_speed_clamp.2 _ (by norm_num) (by norm_num)).2.2.1⟩

/-! ### C1: pause-line snap -/

/-- C1: during a playing tick, when the newly computed focus-line index
`int(scroll_y / lineHeight)` differs from the previously recorded one and is
in the pause set, `_scroll_step` sets `scroll_y` exactly to
`index × lineHeight` — never beyond the advanced offset, so the snap never
overshoots the pause line's top edge — and transitions to Paused. -/
theorem pause_line_snap (lh : Nat) (pauses : List Int) (total : ℚ) (dt : Int)
    (e : ScrollE) (hlh : 0 < lh) (hy : 0 ≤ e.scroll_y) (hs : 0 ≤ e.speed)
    (hne : focusLine lh dt e ≠ e.last_fl)
    (hp : focusLine lh dt e ∈ pauses) :
    (scrollStep lh pauses total dt e).scroll_y
        = (focusLine lh dt e : ℚ) * (lh : ℚ) ∧
    (scrollStep lh pauses total dt e).is_playing = false ∧
    (scrollStep lh pauses total dt e).scroll_y ≤ advanceY dt e := by
  have hcond : 0 < lh ∧ focusLine lh dt e ≠ e.last_fl ∧ focusLine lh dt e ∈ pauses :=
    ⟨hlh, hne, hp⟩
  have hy1 : 0 ≤ advanceY dt e := advanceY_nonneg dt hy hs
  have hlhq : (0 : ℚ) < (lh : ℚ) := by exact_mod_cast hlh
  have hfl : focusLine lh dt e = ⌊advanceY dt e / (lh : ℚ)⌋ := by
    unfold focusLine
    exact pyint_of_nonneg (div_nonneg hy1 hlhq.le)
  have hsnap : (focusLine lh dt e : ℚ) * (lh : ℚ) ≤ advanceY dt e := by
    rw [hfl]
    have h1 : (⌊advanceY dt e / (lh : ℚ)⌋ : ℚ) ≤ advanceY dt e / (lh : ℚ) :=
      Int.floor_le _
    calc (⌊advanceY dt e / (lh : ℚ)⌋ : ℚ) * (lh : ℚ)
        ≤ advanceY dt e / (lh : ℚ) * (lh : ℚ) :=
          mul_le_mul_of_nonneg_right h1 hlhq.le
      _ = advanceY dt e := div_mul_cancel₀ _ hlhq.ne'
  unfold scrollStep
  rw [if_pos hcond]
  exact ⟨rfl, rfl, hsnap⟩

theorem pause_line_snap_witness :
    (scrollStep 10 [1] 1000 100
      { scroll_y := 5, is_playing := true, speed := 2,
        auto_speed_enabled := false, mic_smooth := 0, mic_target := 0,
        last_fl := 0, prog_frame := 0 }).scroll_y = 10 ∧
    (scrollStep 10 [1] 1000 100
      { scroll_y := 5, is_playing := true, speed := 2,
        auto_speed_enabled := false, mic_smooth := 0, mic_target := 0,
        last_fl := 0, prog_frame := 0 }).is_playing = false := by
  have hfl : focusLine 10 100
      { scroll_y := 5, is_playing := true, speed := 2,
        auto_speed_enabled := false, mic_smooth := 0, mic_target := 0,
        last_fl := 0, prog_frame := 0 } = 1 := by
    unfold focusLine advanceY effSpeed micSmoothNext clampDt pyint
    norm_num
  have h := pause_line_snap 10 [1] 1000 100
    { scroll_y := 5, is_playing := true, speed := 2,
      auto_speed_enabled := false, mic_smooth := 0, mic_target := 0,
      last_fl := 0, prog_frame := 0 }
    (by norm_num) (by norm_num) (by norm_num)
    (by rw [hfl]; decide) (by rw [hfl]; simp)
  refine ⟨?_, h.2.1⟩
  rw [h.1, hfl]
  norm_num

/-! ### C3: frame-rate independence -/

theorem scrollStep_speed (lh : Nat) (pauses : List Int) (total : ℚ) (dt : Int)
    (e : ScrollE) : (scrollStep lh pauses total dt e).speed = e.speed := by
  unfold scrollStep
  by_cases hc : 0 < lh ∧ focusLine lh dt e ≠ e.last_fl ∧ focusLine lh dt e ∈ pauses
  · rw [if_pos hc]
  · rw [if_neg hc]

theorem scrollStep_auto (lh : Nat) (pauses : List Int) (total : ℚ) (dt : Int)
    (e : ScrollE) :
    (scrollStep lh pauses total dt e).auto_speed_enabled = e.auto_speed_enabled := by
  unfold scrollStep
  by_cases hc : 0 < lh ∧ focusLine lh dt e ≠ e.last_fl ∧ focusLine lh dt e ∈ pauses
  · rw [if_pos hc]
  · rw [if_neg hc]

theorem scrollStep_plain (lh : Nat) (pauses : List Int) (total : ℚ) (dt : Int)
    (e : ScrollE) (hnp : ¬ pauseHit lh pauses dt e)
    (hend : advanceY dt e < total) :
    (scrollStep lh pauses total dt e).scroll_y = advanceY dt e := by
  unfold pauseHit at hnp
  unfold scrollStep
  rw [if_neg hnp]
  show (if total ≤ advanceY dt e then total else advanceY dt e) = advanceY dt e
  rw [if_neg (not_le.mpr hend)]

/-- C3: with auto-speed disabled and a fixed manual speed, when neither tick
hits a pause line nor the end of content, one tick with `dt = 32 ms` yields
exactly the same `scroll_y` as two consecutive ticks with `dt = 16 ms` — over
`ℚ` the equality is exact, which is the float computation up to rounding. -/
theorem frame_rate_independent (lh : Nat) (pauses : List Int) (total : ℚ)
    (e : ScrollE) (ha : e.auto_speed_enabled = false)
    (h1 : ¬ pauseHit lh pauses 32 e) (h2 : advanceY 32 e < total)
    (h3 : ¬ pauseHit lh pauses 16 e) (h4 : advanceY 16 e < total)
    (h5 : ¬ pauseHit lh pauses 16 (scrollStep lh pauses total 16 e))
    (h6 : advanceY 16 (scrollStep lh pauses total 16 e) < total) :
    (scrollStep lh pauses total 32 e).scroll_y
      = (scrollStep lh pauses total 16 (scrollStep lh pauses total 16 e)).scroll_y := by
  have h16 : (scrollStep lh pauses total 16 e).scroll_y = advanceY 16 e :=
    scrollStep_plain lh pauses total 16 e h3 h4
  have h32 : (scrollStep lh pauses total 32 e).scroll_y = advanceY 32 e :=
    scrollStep_plain lh pauses total 32 e h1 h2
  have h2nd : (scrollStep lh pauses total 16 (scrollStep lh pauses total 16 e)).scroll_y
      = advanceY 16 (scrollStep lh pauses total 16 e) :=
    scrollStep_plain lh pauses total 16 _ h5 h6
  rw [h32, h2nd]
  have heff : effSpeed e = e.speed := by
    unfold effSpeed
    rw [ha]
    simp
  have heff16 : effSpeed (scrollStep lh pauses total 16 e) = e.speed := by
    unfold effSpeed
    rw [scrollStep_auto, ha, scrollStep_speed]
    simp
  unfold advanceY
  rw [h16, heff16, heff]
  unfold advanceY
  rw [heff]
  have c32 : ((clampDt 32 : Int) : ℚ) = 32 := by norm_num [clampDt]
  have c16 : ((clampDt 16 : Int) : ℚ) = 16 := by norm_num [clampDt]
  rw [c32, c16]
  ring

theorem frame_rate_independent_witness :
    (scrollStep 10 [] 1000000 32
      { scroll_y := 0, is_playing := true, speed := 2,
        auto_speed_enabled := false, mic_smooth := 0, mic_target := 0,
        last_fl := 0, prog_frame := 0 }).scroll_y
    = (scrollStep 10 [] 1000000 16 (scrollStep 10 [] 1000000 16
      { scroll_y := 0, is_playing := true, speed := 2,
        auto_speed_enabled := false, mic_smooth := 0, mic_target := 0,
        last_fl := 0, prog_frame := 0 })).scroll_y := by
  apply frame_rate_independent
  · rfl
  · unfold pauseHit
    simp
  · unfold advanceY effSpeed micSmoothNext clampDt
    norm_num
  · unfold pauseHit
    simp
  · unfold advanceY effSpeed micSmoothNext clampDt
    norm_num
  · unfold pauseHit
    simp
  · unfold scrollStep advanceY effSpeed micSmoothNext clampDt focusLine pyint
    norm_num

/-! ### C4: scroll offset bounds -/

theorem scrollStep_scroll_pause (lh : Nat) (pauses : List Int) (total : ℚ)
    (dt : Int) (e : ScrollE)
    (hc : 0 < lh ∧ focusLine lh dt e ≠ e.last_fl ∧ focusLine lh dt e ∈ pauses) :
    (scrollStep lh pauses total dt e).scroll_y
      = (focusLine lh dt e : ℚ) * (lh : ℚ) := by
  unfold scrollStep
  rw [if_pos hc]

theorem scrollStep_scroll_else (lh : Nat) (pauses : List Int) (total : ℚ)
    (dt : Int) (e : ScrollE)
    (hc : ¬ (0 < lh ∧ focusLine lh dt e ≠ e.last_fl ∧ focusLine lh dt e ∈ pauses)) :
    (scrollStep lh pauses total dt e).scroll_y
      = if total ≤ advanceY dt e then total else advanceY dt e := by
  unfold scrollStep
  rw [if_neg hc]

/-- C4 counterexample: the claimed [0, totalHeight] invariant and the claimed
monotonicity across playing ticks both fail on reachable states (layout: 10
lines of height 10, totalHeight 100, pause set {1}).
First divergence — `Key_Right` adds 80 px with no upper clamp: from
`scroll_y = 100` (exactly at the total height) a right skip puts `scroll_y`
at 180, strictly above `totalHeight`.
Second divergence — a tick can *decrease* `scroll_y` while Playing: from a
consistent playing state at `scroll_y = 95` (`_last_fl = 9`), `Key_Left`
moves `scroll_y` to 15, leaving `_last_fl` stale at 9; the next tick computes
focus line 1 ≠ 9, finds it in the pause set and snaps `scroll_y` backward to
10 < 15, even though `scroll_y` was inside [0, totalHeight]. -/
theorem scroll_bounds_cex :
    ((keyRight
      { scroll_y := 100, is_playing := false, speed := 2,
        auto_speed_enabled := false, mic_smooth := 0, mic_target := 0,
        last_fl := 9, prog_frame := 0 }).scroll_y = 180 ∧ (100:ℚ) < 180) ∧
    ((keyLeft
      { scroll_y := 95, is_playing := true, speed := 2,
        auto_speed_enabled := false, mic_smooth := 0, mic_target := 0,
        last_fl := 9, prog_frame := 0 }).scroll_y = 15 ∧
     (scrollStep 10 [1] 100 16 (keyLeft
      { scroll_y := 95, is_playing := true, speed := 2,
        auto_speed_enabled := false, mic_smooth := 0, mic_target := 0,
        last_fl := 9, prog_frame := 0 })).scroll_y = 10 ∧
     (10:ℚ) < 15) := by
  have hkl : keyLeft
      { scroll_y := 95, is_playing := true, speed := 2,
        auto_speed_enabled := false, mic_smooth := 0, mic_target := 0,
        last_fl := 9, prog_frame := 0 }
    = { scroll_y := 15, is_playing := true, speed := 2,
        auto_speed_enabled := false, mic_smooth := 0, mic_target := 0,
        last_fl := 9, prog_frame := 0 } := by
    unfold keyLeft
    norm_num
  refine ⟨⟨by unfold keyRight; norm_num, by norm_num⟩, ?_, ?_, by norm_num⟩
  · rw [hkl]
  · rw [hkl]
    have hfl : focusLine 10 16
        { scroll_y := 15, is_playing := true, speed := 2,
          auto_speed_enabled := false, mic_smooth := 0, mic_target := 0,
          last_fl := 9, prog_frame := 0 } = 1 := by
      unfold focusLine advanceY effSpeed micSmoothNext clampDt pyint
      norm_num
    rw [scrollStep_scroll_pause 10 [1] 100 16 _
      ⟨by norm_num, by rw [hfl]; decide, by rw [hfl]; simp⟩, hfl]
    norm_num

/-- C4 (amended): `scroll_y` stays non-negative under ticks and both keyboard
skips, and each tick leaves `scroll_y` at or below
`totalHeight = lineCount × lineHeight` (pause indices being valid line
indices); but the other two parts of the claim fail as exhibited by the
counterexample: the right skip (`Key_Right`) adds 80 px without an upper
clamp, so `scroll_y` can exceed `totalHeight` until the next tick clamps it,
and a playing tick is monotone non-decreasing only while the focus tracker
equals `⌊scroll_y / lineHeight⌋` and the offset is within the content —
uninterrupted playback maintains that consistency, but a keyboard skip leaves
the tracker stale and the next tick can then snap `scroll_y` backward onto a
pause line. -/
theorem scroll_bounds (lh : Nat) (pauses : List Int) (n : Nat) (dt : Int)
    (e : ScrollE) (hlh : 0 < lh) (hy : 0 ≤ e.scroll_y) (hs : 0 ≤ e.speed)
    (hp : ∀ p ∈ pauses, 0 ≤ p ∧ p < (n : Int)) :
    0 ≤ (keyLeft e).scroll_y ∧
    0 ≤ (keyRight e).scroll_y ∧
    0 ≤ (scrollStep lh pauses ((n * lh : Nat) : ℚ) dt e).scroll_y ∧
    (e.last_fl = ⌊e.scroll_y / (lh : ℚ)⌋ →
      e.scroll_y ≤ ((n * lh : Nat) : ℚ) →
      e.scroll_y ≤ (scrollStep lh pauses ((n * lh : Nat) : ℚ) dt e).scroll_y) ∧
    (scrollStep lh pauses ((n * lh : Nat) : ℚ) dt e).scroll_y
      ≤ ((n * lh : Nat) : ℚ) := by
  have hlhq : (0 : ℚ) < (lh : ℚ) := by exact_mod_cast hlh
  have hy1 : 0 ≤ advanceY dt e := advanceY_nonneg dt hy hs
  have hadv : e.scroll_y ≤ advanceY dt e := advanceY_le dt hs
  have hTnn : (0:ℚ) ≤ ((n * lh : Nat) : ℚ) := by positivity
  have hkl : 0 ≤ (keyLeft e).scroll_y := le_max_left 0 _
  have hkr : 0 ≤ (keyRight e).scroll_y := by
    unfold keyRight
    show (0:ℚ) ≤ e.scroll_y + 80
    linarith
  by_cases hc : 0 < lh ∧ focusLine lh dt e ≠ e.last_fl ∧ focusLine lh dt e ∈ pauses
  · -- pause-snap branch
    have hsn := scrollStep_scroll_pause lh pauses ((n * lh : Nat) : ℚ) dt e hc
    have hfl : focusLine lh dt e = ⌊advanceY dt e / (lh : ℚ)⌋ := by
      unfold focusLine
      exact pyint_of_nonneg (div_nonneg hy1 hlhq.le)
    have hflnn : 0 ≤ focusLine lh dt e := by
      rw [hfl]
      exact Int.floor_nonneg.mpr (div_nonneg hy1 hlhq.le)
    refine ⟨hkl, hkr, ?_, ?_, ?_⟩
    · rw [hsn]
      have : (0:ℚ) ≤ (focusLine lh dt e : ℚ) := by exact_mod_cast hflnn
      positivity
    · intro hlast hyT
      rw [hsn]
      have hmono : ⌊e.scroll_y / (lh : ℚ)⌋ ≤ ⌊advanceY dt e / (lh : ℚ)⌋ :=
        Int.floor_le_floor (by gcongr)
      have hgt : ⌊e.scroll_y / (lh : ℚ)⌋ + 1 ≤ focusLine lh dt e := by
        rw [hfl]
        rcases lt_or_eq_of_le hmono with h | h
        · omega
        · exfalso
          apply hc.2.1
          rw [hfl, ← h, hlast]
      have hylt : e.scroll_y < ((⌊e.scroll_y / (lh : ℚ)⌋ : ℚ) + 1) * (lh : ℚ) := by
        have := Int.lt_floor_add_one (e.scroll_y / (lh : ℚ))
        calc e.scroll_y = e.scroll_y / (lh : ℚ) * (lh : ℚ) :=
              (div_mul_cancel₀ _ hlhq.ne').symm
          _ < ((⌊e.scroll_y / (lh : ℚ)⌋ : ℚ) + 1) * (lh : ℚ) := by
              apply mul_lt_mul_of_pos_right this hlhq
      have hcast : ((⌊e.scroll_y / (lh : ℚ)⌋ : ℚ) + 1) ≤ (focusLine lh dt e : ℚ) := by
        exact_mod_cast hgt
      have := mul_le_mul_of_nonneg_right hcast hlhq.le
      linarith
    · rw [hsn]
      have hfln : focusLine lh dt e < (n : Int) := (hp _ hc.2.2).2
      have hcast : (focusLine lh dt e : ℚ) ≤ (n : ℚ) := by
        have : focusLine lh dt e ≤ (n : Int) := hfln.le
        exact_mod_cast this
      have := mul_le_mul_of_nonneg_right hcast hlhq.le
      have hT : ((n * lh : Nat) : ℚ) = (n : ℚ) * (lh : ℚ) := by push_cast; ring
      linarith
  · -- plain branch: clamp at the total
    have hse := scrollStep_scroll_else lh pauses ((n * lh : Nat) : ℚ) dt e hc
    refine ⟨hkl, hkr, ?_, ?_, ?_⟩
    · rw [hse]
      split
      · exact hTnn
      · exact hy1
    · intro _ hyT
      rw [hse]
      split
      · exact hyT
      · exact hadv
    · rw [hse]
      split
      · exact le_refl _
      · linarith [lt_of_not_le (by assumption : ¬ ((n * lh : Nat) : ℚ) ≤ advanceY dt e)]

theorem scroll_bounds_witness :
    0 ≤ (keyRight
      { scroll_y := 5, is_playing := true, speed := 2,
        auto_speed_enabled := false, mic_smooth := 0, mic_target := 0,
        last_fl := 0, prog_frame := 0 }).scroll_y ∧
    (scrollStep 10 [1] ((10 * 10 : Nat) : ℚ) 16
      { scroll_y := 5, is_playing := true, speed := 2,
        auto_speed_enabled := false, mic_smooth := 0, mic_target := 0,
        last_fl := 0, prog_frame := 0 }).scroll_y ≤ ((10 * 10 : Nat) : ℚ) :=
  ⟨(scroll_bounds 10 [1] 10 16
      { scroll_y := 5, is_playing := true, speed := 2,
        auto_speed_enabled := false, mic_smooth := 0, mic_target := 0,
        last_fl := 0, prog_frame := 0 }
      (by norm_num) (by norm_num) (by norm_num) (by decide)).2.1,
   (scroll_bounds 10 [1] 10 16
      { scroll_y := 5, is_playing := true, speed := 2,
        auto_speed_enabled := false, mic_smooth := 0, mic_target := 0,
        last_fl := 0, prog_frame := 0 }
      (by norm_num) (by norm_num) (by norm_num) (by decide)).2.2.2.2⟩

/-! ### C6: layout cache idempotence -/

theorem ensureFont_post (mp : MetricsProvider) (e : Eng) :
    (ensureFont mp e).font_key = some (fontKeyOf (ensureFont mp e)) := by
  unfold ensureFont
  split
  next h => exact h
  next h => rfl

theorem ensureLayout_hit (mp : MetricsProvider) (e : Eng)
    (h1 : e.font_key = some (fontKeyOf e))
    (h2 : e.layout_key = some (layoutKeyOf e)) : ensureLayout mp e = e := by
  have hf : ensureFont mp e = e := by
    unfold ensureFont
    rw [if_pos h1]
  simp only [ensureLayout]
  rw [hf, if_pos h2]

theorem ensureLayout_post (mp : MetricsProvider) (e : Eng) :
    (ensureLayout mp e).font_key = some (fontKeyOf (ensureLayout mp e)) ∧
    (ensureLayout mp e).layout_key = some (layoutKeyOf (ensureLayout mp e)) := by
  simp only [ensureLayout]
  split
  next h => exact ⟨ensureFont_post mp e, h⟩
  next h =>
    constructor
    · show (ensureFont mp e).font_key = some (fontKeyOf (ensureFont mp e))
      exact ensureFont_post mp e
    · rfl

/-- C6: `_ensure_layout` is idempotent: if the engine's cached font key and
layout key both match the current settings, the call returns the state
unchanged (no rebuild); and calling it twice in a row always equals calling it
once — in particular the instrumented rebuild counter does not move on the
second call, so the re-wrap runs at most once. -/
theorem ensure_layout_idempotent (mp : MetricsProvider) (e : Eng) :
    (e.font_key = some (fontKeyOf e) → e.layout_key = some (layoutKeyOf e) →
      ensureLayout mp e = e) ∧
    ensureLayout mp (ensureLayout mp e) = ensureLayout mp e ∧
    (ensureLayout mp (ensureLayout mp e)).rebuilds = (ensureLayout mp e).rebuilds := by
  refine ⟨fun h1 h2 => ensureLayout_hit mp e h1 h2, ?_, ?_⟩
  · exact ensureLayout_hit mp _ (ensureLayout_post mp e).1 (ensureLayout_post mp e).2
  · rw [ensureLayout_hit mp _ (ensureLayout_post mp e).1 (ensureLayout_post mp e).2]

theorem ensure_layout_idempotent_witness :
    ensureLayout
      { lineSpacing := fun _ _ => 20, ascent := fun _ _ => 15,
        advance := fun _ _ w => 10 * w.length }
      { text := [], width := 920, font_family := "Arial", font_size := 48,
        line_spacing_factor := 1, text_align := Align.left,
        font_key := some ("Arial", 48, 1), f_asc := 15, f_line_h := 24,
        f_sp_w := 10,
        layout_key := some ([], 920, ("Arial", 48, 1), Align.left),
        l_layout := { lines := [], wxs := [], pauses := [], notes := [], total := 0 },
        rebuilds := 0 }
    = { text := [], width := 920, font_family := "Arial", font_size := 48,
        line_spacing_factor := 1, text_align := Align.left,
        font_key := some ("Arial", 48, 1), f_asc := 15, f_line_h := 24,
        f_sp_w := 10,
        layout_key := some ([], 920, ("Arial", 48, 1), Align.left),
        l_layout := { lines := [], wxs := [], pauses := [], notes := [], total := 0 },
        rebuilds := 0 } :=
  (ensure_layout_idempotent
    { lineSpacing := fun _ _ => 20, ascent := fun _ _ => 15,
      advance := fun _ _ w => 10 * w.length }
    { text := [], width := 920, font_family := "Arial", font_size := 48,
      line_spacing_factor := 1, text_align := Align.left,
      font_key := some ("Arial", 48, 1), f_asc := 15, f_line_h := 24,
      f_sp_w := 10,
      layout_key := some ([], 920, ("Arial", 48, 1), Align.left),
      l_layout := { lines := [], wxs := [], pauses := [], notes := [], total := 0 },
      rebuilds := 0 }).1 rfl rfl

/-! ### Wrap-loop lemmas -/

theorem wrapWords_nil (fm : Str → Nat) (sp_w : Nat) (mw : Int) (a : Align)
    (W : Int) (cur : List Str) (cw : Nat) (L : List Str)
    (X : List (List (Str × Int))) :
    wrapWords fm sp_w mw a W [] cur cw L X =
      if cur = [] then (L, X)
      else (L ++ [joinWords cur], X ++ [wordXs fm sp_w a W cur]) := rfl

theorem wrapWords_cons (fm : Str → Nat) (sp_w : Nat) (mw : Int) (a : Align)
    (W : Int) (w : Str) (rest cur : List Str) (cw : Nat) (L : List Str)
    (X : List (List (Str × Int))) :
    wrapWords fm sp_w mw a W (w :: rest) cur cw L X =
      if ((cw : Int) + ((if cur = [] then fm w else sp_w + fm w : Nat) : Int) ≤ mw) then
        wrapWords fm sp_w mw a W rest (cur ++ [w])
          (cw + (if cur = [] then fm w else sp_w + fm w)) L X
      else if cur = [] then
        wrapWords fm sp_w mw a W rest [w] (fm w) L X
      else
        wrapWords fm sp_w mw a W rest [w] (fm w)
          (L ++ [joinWords cur]) (X ++ [wordXs fm sp_w a W cur]) := rfl

theorem wrapWords_shift (fm : Str → Nat) (sp_w : Nat) (mw : Int) (a : Align)
    (W : Int) :
    ∀ (ws cur : List Str) (cw : Nat) (L : List Str)
      (X : List (List (Str × Int))),
      wrapWords fm sp_w mw a W ws cur cw L X
        = (L ++ (wrapWords fm sp_w mw a W ws cur cw [] []).1,
           X ++ (wrapWords fm sp_w mw a W ws cur cw [] []).2) := by
  intro ws
  induction ws with
  | nil =>
      intro cur cw L X
      simp only [wrapWords_nil]
      by_cases hc : cur = []
      · simp [hc]
      · simp [hc]
  | cons w rest ih =>
      intro cur cw L X
      simp only [wrapWords_cons]
      by_cases hfit :
          ((cw : Int) + ((if cur = [] then fm w else sp_w + fm w : Nat) : Int) ≤ mw)
      · simp only [if_pos hfit]
        exact ih _ _ _ _
      · simp only [if_neg hfit]
        by_cases hc : cur = []
        · simp only [if_pos hc]
          exact ih _ _ _ _
        · simp only [if_neg hc]
          rw [ih [w] (fm w) (L ++ [joinWords cur]) (X ++ [wordXs fm sp_w a W cur]),
            ih [w] (fm w) ([] ++ [joinWords cur]) ([] ++ [wordXs fm sp_w a W cur])]
          simp

theorem wordXsAux_map_fst (fm : Str → Nat) (sp_w : Nat) :
    ∀ (ws : List Str) (x : Int), (wordXsAux fm sp_w ws x).map Prod.fst = ws := by
  intro ws
  induction ws with
  | nil => intro x; rfl
  | cons w t ih =>
      intro x
      simp only [wordXsAux, List.map_cons]
      rw [ih]

theorem wordXs_map_fst (fm : Str → Nat) (sp_w : Nat) (a : Align) (W : Int)
    (ws : List Str) : (wordXs fm sp_w a W ws).map Prod.fst = ws :=
  wordXsAux_map_fst fm sp_w ws _

theorem wordXs_length (fm : Str → Nat) (sp_w : Nat) (a : Align) (W : Int)
    (ws : List Str) : (wordXs fm sp_w a W ws).length = ws.length := by
  have h := congrArg List.length (wordXs_map_fst fm sp_w a W ws)
  simpa using h

theorem lineWidth_single (fm : Str → Nat) (sp_w : Nat) (w : Str) :
    lineWidth fm sp_w [w] = (fm w : Int) := by
  unfold lineWidth
  simp

theorem lineWidth_append (fm : Str → Nat) (sp_w : Nat) (ws : List Str) (w : Str) :
    lineWidth fm sp_w (ws ++ [w])
      = lineWidth fm sp_w ws + (sp_w : Int) + (fm w : Int) := by
  unfold lineWidth
  push_cast [List.map_append, List.sum_append, List.length_append,
    List.map_cons, List.map_nil, List.sum_cons, List.sum_nil,
    List.length_cons, List.length_nil]
  ring

theorem joinWords_ne_nil :
    ∀ (ws : List Str), ws ≠ [] → (∀ w ∈ ws, w ≠ []) → joinWords ws ≠ [] := by
  intro ws
  match ws with
  | [] => intro h; exact absurd rfl h
  | [w] =>
      intro _ hw
      simpa [joinWords] using hw w (by simp)
  | w :: y :: t =>
      intro _ _
      show w ++ ' ' :: joinWords (y :: t) ≠ []
      simp

theorem pySplitAux_ne :
    ∀ (cs cur w : Str), w ∈ pySplitAux cs cur → w ≠ [] := by
  intro cs
  induction cs with
  | nil =>
      intro cur w hw
      unfold pySplitAux at hw
      by_cases hc : cur = []
      · simp [hc] at hw
      · simp only [if_neg hc, List.mem_singleton] at hw
        subst hw
        simpa using hc
  | cons c rest ih =>
      intro cur w hw
      unfold pySplitAux at hw
      by_cases hs : pySpace c
      · rw [if_pos hs] at hw
        by_cases hc : cur = []
        · rw [if_pos hc] at hw
          exact ih [] w hw
        · rw [if_neg hc] at hw
          rcases List.mem_cons.mp hw with h | h
          · subst h
            simpa using hc
          · exact ih [] w h
      · rw [if_neg hs] at hw
        exact ih (c :: cur) w hw

theorem pySplit_ne (cs w : Str) (h : w ∈ pySplit cs) : w ≠ [] :=
  pySplitAux_ne cs [] w h

theorem wrapWords_len (fm : Str → Nat) (sp_w : Nat) (mw : Int) (a : Align)
    (W : Int) :
    ∀ (ws cur : List Str) (cw : Nat) (L : List Str)
      (X : List (List (Str × Int))), L.length = X.length →
      (wrapWords fm sp_w mw a W ws cur cw L X).1.length
        = (wrapWords fm sp_w mw a W ws cur cw L X).2.length := by
  intro ws
  induction ws with
  | nil =>
      intro cur cw L X hLX
      rw [wrapWords_nil]
      by_cases hc : cur = []
      · simpa [hc] using hLX
      · simp [hc, hLX]
  | cons w rest ih =>
      intro cur cw L X hLX
      rw [wrapWords_cons]
      by_cases hfit :
          ((cw : Int) + ((if cur = [] then fm w else sp_w + fm w : Nat) : Int) ≤ mw)
      · rw [if_pos hfit]
        exact ih _ _ _ _ hLX
      · rw [if_neg hfit]
        by_cases hc : cur = []
        · rw [if_pos hc]
          exact ih _ _ _ _ hLX
        · rw [if_neg hc]
          exact ih _ _ _ _ (by simp [hLX])

theorem wrapWords_new_lines (fm : Str → Nat) (sp_w : Nat) (mw : Int) (a : Align)
    (W : Int) :
    ∀ (ws cur : List Str) (cw : Nat) (L : List Str)
      (X : List (List (Str × Int))),
      (∀ w ∈ ws, w ≠ []) → (∀ w ∈ cur, w ≠ []) →
      ∀ l ∈ (wrapWords fm sp_w mw a W ws cur cw L X).1, l ∈ L ∨ l ≠ [] := by
  intro ws
  induction ws with
  | nil =>
      intro cur cw L X _ hcur l hl
      rw [wrapWords_nil] at hl
      by_cases hc : cur = []
      · rw [if_pos hc] at hl
        exact Or.inl hl
      · rw [if_neg hc] at hl
        rcases List.mem_append.mp hl with h | h
        · exact Or.inl h
        · right
          rw [List.mem_singleton.mp h]
          exact joinWords_ne_nil cur hc hcur
  | cons w rest ih =>
      intro cur cw L X hws hcur l hl
      rw [wrapWords_cons] at hl
      have hw : w ≠ [] := hws w (by simp)
      have hrest : ∀ u ∈ rest, u ≠ [] := fun u hu => hws u (by simp [hu])
      by_cases hfit :
          ((cw : Int) + ((if cur = [] then fm w else sp_w + fm w : Nat) : Int) ≤ mw)
      · rw [if_pos hfit] at hl
        refine ih _ _ _ _ hrest ?_ l hl
        intro u hu
        rcases List.mem_append.mp hu with h | h
        · exact hcur u h
        · rw [List.mem_singleton.mp h]
          exact hw
      · rw [if_neg hfit] at hl
        by_cases hc : cur = []
        · rw [if_pos hc] at hl
          exact ih _ _ _ _ hrest (by simpa using hw) l hl
        · rw [if_neg hc] at hl
          rcases ih _ _ _ _ hrest (by simpa using hw) l hl with h | h
          · rcases List.mem_append.mp h with h2 | h2
            · exact Or.inl h2
            · right
              rw [List.mem_singleton.mp h2]
              exact joinWords_ne_nil cur hc hcur
          · exact Or.inr h

theorem wrapWords_cons_empty (fm : Str → Nat) (sp_w : Nat) (mw : Int)
    (a : Align) (W : Int) (w : Str) (rest : List Str) (cw : Nat)
    (L : List Str) (X : List (List (Str × Int))) :
    wrapWords fm sp_w mw a W (w :: rest) [] cw L X =
      if ((cw : Int) + (fm w : Int) ≤ mw) then
        wrapWords fm sp_w mw a W rest [w] (cw + fm w) L X
      else
        wrapWords fm sp_w mw a W rest [w] (fm w) L X := rfl

theorem wrapWords_good (fm : Str → Nat) (sp_w : Nat) (mw : Int) (a : Align)
    (W : Int) :
    ∀ (ws cur : List Str) (cw : Nat) (L : List Str)
      (X : List (List (Str × Int))),
      (cur = [] → cw = 0) →
      (cur ≠ [] → (cw : Int) = lineWidth fm sp_w cur) →
      (2 ≤ cur.length → (cw : Int) ≤ mw) →
      (∀ x ∈ X, 2 ≤ x.length → lineWidth fm sp_w (x.map Prod.fst) ≤ mw) →
      ∀ x ∈ (wrapWords fm sp_w mw a W ws cur cw L X).2, 2 ≤ x.length →
        lineWidth fm sp_w (x.map Prod.fst) ≤ mw := by
  intro ws
  induction ws with
  | nil =>
      intro cur cw L X h0 h1 h2 hX x hx hlen
      rw [wrapWords_nil] at hx
      by_cases hc : cur = []
      · rw [if_pos hc] at hx
        exact hX x hx hlen
      · rw [if_neg hc] at hx
        rcases List.mem_append.mp hx with h | h
        · exact hX x h hlen
        · rw [List.mem_singleton.mp h] at hlen ⊢
          rw [wordXs_map_fst]
          rw [wordXs_length] at hlen
          rw [← h1 hc]
          exact h2 hlen
  | cons w rest ih =>
      intro cur cw L X h0 h1 h2 hX x hx hlen
      by_cases hc : cur = []
      · subst hc
        rw [wrapWords_cons_empty] at hx
        by_cases hfit : ((cw : Int) + (fm w : Int) ≤ mw)
        · rw [if_pos hfit] at hx
          refine ih [w] (cw + fm w) L X (by simp) ?_ (by simp) hX x hx hlen
          intro _
          rw [lineWidth_single]
          have hcw : cw = 0 := h0 rfl
          subst hcw
          push_cast
          ring
        · rw [if_neg hfit] at hx
          refine ih [w] (fm w) L X (by simp) ?_ (by simp) hX x hx hlen
          intro _
          rw [lineWidth_single]
      · rw [wrapWords_cons] at hx
        simp only [if_neg hc] at hx
        by_cases hfit : ((cw : Int) + ((sp_w + fm w : Nat) : Int) ≤ mw)
        · rw [if_pos hfit] at hx
          refine ih (cur ++ [w]) (cw + (sp_w + fm w)) L X (by simp) ?_ ?_ hX x hx hlen
          · intro _
            rw [lineWidth_append, ← h1 hc]
            push_cast
            ring
          · intro _
            push_cast
            push_cast at hfit
            linarith
        · rw [if_neg hfit] at hx
          refine ih [w] (fm w) (L ++ [joinWords cur])
            (X ++ [wordXs fm sp_w a W cur]) (by simp) ?_ (by simp) ?_ x hx hlen
          · intro _
            rw [lineWidth_single]
          · intro y hy hylen
            rcases List.mem_append.mp hy with h | h
            · exact hX y h hylen
            · rw [List.mem_singleton.mp h] at hylen ⊢
              rw [wordXs_map_fst]
              rw [wordXs_length] at hylen
              rw [← h1 hc]
              exact h2 hylen

/-! ### C5: the wrap-width invariant -/

/-- C5: in every layout built by `_ensure_layout`, every wrapped DisplayLine
holding two or more words satisfies `sum of word widths +
spaceWidth × (wordCount − 1) ≤ viewportWidth − 80`; a line can exceed that
budget only when it holds a single (unsplittable) word. -/
theorem wrap_width_invariant (fm : Str → Nat) (sp_w lh : Nat) (a : Align)
    (W : Int) (text : Str) :
    ∀ x ∈ (buildLayout fm sp_w lh a W text).wxs, 2 ≤ x.length →
      lineWidth fm sp_w (x.map Prod.fst) ≤ W - 80 := by
  have main : ∀ (paras : List Str) (acc : Layout),
      (∀ x ∈ acc.wxs, 2 ≤ x.length → lineWidth fm sp_w (x.map Prod.fst) ≤ W - 80) →
      ∀ x ∈ (paras.foldl (paraStep fm sp_w a W (W - 80)) acc).wxs,
        2 ≤ x.length → lineWidth fm sp_w (x.map Prod.fst) ≤ W - 80 := by
    intro paras
    induction paras with
    | nil => intro acc h; exact h
    | cons raw rest ih =>
        intro acc h
        rw [List.foldl_cons]
        refine ih _ ?_
        unfold paraStep
        have hacc1 : ∀ x ∈
            (if pystrip (noteSub raw) = [] then
              { acc with lines := acc.lines ++ [[]], wxs := acc.wxs ++ [[]] }
            else if pystrip (noteSub raw) = pauseTag then
              { acc with pauses := acc.pauses ++ [acc.lines.length],
                         lines := acc.lines ++ [pauseTag], wxs := acc.wxs ++ [[]] }
            else
              { acc with
                lines := (wrapWords fm sp_w (W - 80) a W
                  (pySplit (pystrip (noteSub raw))) [] 0 acc.lines acc.wxs).1,
                wxs := (wrapWords fm sp_w (W - 80) a W
                  (pySplit (pystrip (noteSub raw))) [] 0 acc.lines acc.wxs).2 } : Layout).wxs,
            2 ≤ x.length → lineWidth fm sp_w (x.map Prod.fst) ≤ W - 80 := by
          by_cases he : pystrip (noteSub raw) = []
          · rw [if_pos he]
            intro x hx hlen
            rcases List.mem_append.mp hx with hm | hm
            · exact h x hm hlen
            · rw [List.mem_singleton.mp hm] at hlen
              simp at hlen
          · rw [if_neg he]
            by_cases hp : pystrip (noteSub raw) = pauseTag
            · rw [if_pos hp]
              intro x hx hlen
              rcases List.mem_append.mp hx with hm | hm
              · exact h x hm hlen
              · rw [List.mem_singleton.mp hm] at hlen
                simp at hlen
            · rw [if_neg hp]
              exact wrapWords_good fm sp_w (W - 80) a W _ [] 0 acc.lines acc.wxs
                (fun _ => rfl) (fun hne => absurd rfl hne) (by simp) h
        cases hn : (noteSearch raw).map pystrip with
        | some n =>
            simp only [hn]
            exact hacc1
        | none =>
            simp only [hn]
            exact hacc1
  intro x hx
  exact main (splitNl text)
    { lines := [], wxs := [], pauses := [], notes := [], total := 0 }
    (by simp) x hx

theorem wrap_width_invariant_witness :
    2 ≤ ([(("aa".toList : Str), (40 : Int)), ("bb".toList, 70)]).length ∧
    lineWidth (fun w => 10 * w.length) 10
      (([(("aa".toList : Str), (40 : Int)), ("bb".toList, 70)]).map Prod.fst)
      ≤ 200 - 80 :=
  ⟨by decide,
   wrap_width_invariant (fun w => 10 * w.length) 10 10 Align.left 200
     "aa bb".toList [("aa".toList, 40), ("bb".toList, 70)]
     (by decide) (by decide)⟩

/-! ### C10: layout lockstep invariant -/

theorem getElem?_append_of_lt {α : Type} (L A : List α) (i : Nat)
    (h : i < L.length) : (L ++ A)[i]? = L[i]? := by
  rw [List.getElem?_append, if_pos h]

theorem lockstep_append_one (acc : Layout) (l : Str) (x : List (Str × Int))
    (h : LayoutLockstep acc) (hlx : l = [] → x = []) :
    LayoutLockstep { acc with lines := acc.lines ++ [l], wxs := acc.wxs ++ [x] } := by
  obtain ⟨hlen, hpause, hempty⟩ := h
  refine ⟨by simp [hlen], ?_, ?_⟩
  · intro p hp
    have hold := hpause p hp
    have hplt : p < acc.wxs.length := (List.getElem?_eq_some.mp hold).1
    show (acc.wxs ++ [x])[p]? = some []
    rw [getElem?_append_of_lt _ _ p hplt]
    exact hold
  · intro i hline
    show (acc.wxs ++ [x])[i]? = some []
    have hline2 : (acc.lines ++ [l])[i]? = some [] := hline
    by_cases hi : i < acc.lines.length
    · rw [getElem?_append_of_lt _ _ i hi] at hline2
      have := hempty i hline2
      have hi2 : i < acc.wxs.length := (List.getElem?_eq_some.mp this).1
      rw [getElem?_append_of_lt _ _ i hi2]
      exact this
    · rw [List.getElem?_append, if_neg hi] at hline2
      rcases hj : i - acc.lines.length with _ | j
      · rw [hj] at hline2
        simp only [List.getElem?_cons_zero, Option.some.injEq] at hline2
        have hx : x = [] := hlx hline2
        have hi2 : ¬ i < acc.wxs.length := by omega
        rw [List.getElem?_append, if_neg hi2, hx]
        have : i - acc.wxs.length = 0 := by omega
        rw [this]
        rfl
      · rw [hj] at hline2
        simp at hline2

theorem lockstep_pause_branch (acc : Layout) (h : LayoutLockstep acc) :
    LayoutLockstep { acc with pauses := acc.pauses ++ [acc.lines.length],
                              lines := acc.lines ++ [pauseTag],
                              wxs := acc.wxs ++ [[]] } := by
  have hbase := lockstep_append_one acc pauseTag [] h (fun hq => absurd hq (by decide))
  obtain ⟨hlen, hpause, hempty⟩ := hbase
  refine ⟨hlen, ?_, hempty⟩
  intro p hp
  rcases List.mem_append.mp hp with hm | hm
  · exact hpause p hm
  · obtain ⟨hlen0, -, -⟩ := h
    rw [List.mem_singleton.mp hm, hlen0]
    show (acc.wxs ++ [[]])[acc.wxs.length]? = some []
    rw [List.getElem?_concat_length]

theorem lockstep_wrap_branch (fm : Str → Nat) (sp_w : Nat) (mw : Int)
    (a : Align) (W : Int) (acc : Layout) (ws : List Str)
    (h : LayoutLockstep acc) (hws : ∀ w ∈ ws, w ≠ []) :
    LayoutLockstep { acc with
      lines := (wrapWords fm sp_w mw a W ws [] 0 acc.lines acc.wxs).1,
      wxs := (wrapWords fm sp_w mw a W ws [] 0 acc.lines acc.wxs).2 } := by
  obtain ⟨hlen, hpause, hempty⟩ := h
  have hshift := wrapWords_shift fm sp_w mw a W ws [] 0 acc.lines acc.wxs
  have hL : (wrapWords fm sp_w mw a W ws [] 0 acc.lines acc.wxs).1
      = acc.lines ++ (wrapWords fm sp_w mw a W ws [] 0 [] []).1 := by
    rw [hshift]
  have hX : (wrapWords fm sp_w mw a W ws [] 0 acc.lines acc.wxs).2
      = acc.wxs ++ (wrapWords fm sp_w mw a W ws [] 0 [] []).2 := by
    rw [hshift]
  have hAB : (wrapWords fm sp_w mw a W ws [] 0 [] []).1.length
      = (wrapWords fm sp_w mw a W ws [] 0 [] []).2.length :=
    wrapWords_len fm sp_w mw a W ws [] 0 [] [] rfl
  have hAne : ∀ l ∈ (wrapWords fm sp_w mw a W ws [] 0 [] []).1, l ≠ [] := by
    intro l hl
    rcases wrapWords_new_lines fm sp_w mw a W ws [] 0 [] [] hws (by simp) l hl with hm | hm
    · simp at hm
    · exact hm
  refine ⟨?_, ?_, ?_⟩
  · show (wrapWords fm sp_w mw a W ws [] 0 acc.lines acc.wxs).1.length
        = (wrapWords fm sp_w mw a W ws [] 0 acc.lines acc.wxs).2.length
    rw [hL, hX]
    simp only [List.length_append]
    omega
  · intro p hp
    have hold := hpause p hp
    have hplt : p < acc.wxs.length := (List.getElem?_eq_some.mp hold).1
    show (wrapWords fm sp_w mw a W ws [] 0 acc.lines acc.wxs).2[p]? = some []
    rw [hX, getElem?_append_of_lt _ _ p hplt]
    exact hold
  · intro i hline
    have hline2 : (wrapWords fm sp_w mw a W ws [] 0 acc.lines acc.wxs).1[i]?
        = some [] := hline
    rw [hL] at hline2
    show (wrapWords fm sp_w mw a W ws [] 0 acc.lines acc.wxs).2[i]? = some []
    rw [hX]
    by_cases hi : i < acc.lines.length
    · rw [getElem?_append_of_lt _ _ i hi] at hline2
      have := hempty i hline2
      have hi2 : i < acc.wxs.length := (List.getElem?_eq_some.mp this).1
      rw [getElem?_append_of_lt _ _ i hi2]
      exact this
    · exfalso
      rw [List.getElem?_append, if_neg hi] at hline2
      have hmem := List.getElem?_mem hline2
      exact hAne [] hmem rfl

theorem paraStep_lockstep (fm : Str → Nat) (sp_w : Nat) (a : Align)
    (W mw : Int) (acc : Layout) (raw : Str) (h : LayoutLockstep acc) :
    LayoutLockstep (paraStep fm sp_w a W mw acc raw) := by
  unfold paraStep
  have hacc1 : LayoutLockstep
      (if pystrip (noteSub raw) = [] then
        { acc with lines := acc.lines ++ [[]], wxs := acc.wxs ++ [[]] }
      else if pystrip (noteSub raw) = pauseTag then
        { acc with pauses := acc.pauses ++ [acc.lines.length],
                   lines := acc.lines ++ [pauseTag], wxs := acc.wxs ++ [[]] }
      else
        { acc with
          lines := (wrapWords fm sp_w mw a W
            (pySplit (pystrip (noteSub raw))) [] 0 acc.lines acc.wxs).1,
          wxs := (wrapWords fm sp_w mw a W
            (pySplit (pystrip (noteSub raw))) [] 0 acc.lines acc.wxs).2 } : Layout) := by
    by_cases he : pystrip (noteSub raw) = []
    · rw [if_pos he]
      exact lockstep_append_one acc [] [] h (fun _ => rfl)
    · rw [if_neg he]
      by_cases hp : pystrip (noteSub raw) = pauseTag
      · rw [if_pos hp]
        exact lockstep_pause_branch acc h
      · rw [if_neg hp]
        exact lockstep_wrap_branch fm sp_w mw a W acc _ h
          (fun w hw => pySplit_ne _ w hw)
  cases hn : (noteSearch raw).map pystrip with
  | some n =>
      simp only [hn]
      exact hacc1
  | none =>
      simp only [hn]
      exact hacc1

/-- C10: after every layout rebuild the display-line list and the per-line
word-offset list have equal length, every pause-line index has word-offset
entry `[]` (in particular it is in bounds), and every empty display line has
word-offset entry `[]` — so the paint loop's indexing of `word_xs` by line
index is in bounds and the word-highlight path (guarded by `word_xs[i]` being
non-empty) never fires on a pause or empty DisplayLine. -/
theorem layout_lockstep (fm : Str → Nat) (sp_w lh : Nat) (a : Align) (W : Int)
    (text : Str) :
    (buildLayout fm sp_w lh a W text).lines.length
      = (buildLayout fm sp_w lh a W text).wxs.length ∧
    (∀ p ∈ (buildLayout fm sp_w lh a W text).pauses,
      (buildLayout fm sp_w lh a W text).wxs[p]? = some []) ∧
    (∀ i : Nat, (buildLayout fm sp_w lh a W text).lines[i]? = some [] →
      (buildLayout fm sp_w lh a W text).wxs[i]? = some []) := by
  have main : ∀ (paras : List Str) (acc : Layout), LayoutLockstep acc →
      LayoutLockstep (paras.foldl (paraStep fm sp_w a W (W - 80)) acc) := by
    intro paras
    induction paras with
    | nil => intro acc h; exact h
    | cons raw rest ih =>
        intro acc h
        rw [List.foldl_cons]
        exact ih _ (paraStep_lockstep fm sp_w a W (W - 80) acc raw h)
  exact main (splitNl text)
    { lines := [], wxs := [], pauses := [], notes := [], total := 0 }
    ⟨rfl, by simp, by simp⟩

theorem layout_lockstep_witness :
    (buildLayout (fun w => 10 * w.length) 10 10 Align.left 200
      "a\n[PAUSE]\nb c".toList).wxs[1]? = some [] :=
  (layout_lockstep (fun w => 10 * w.length) 10 10 Align.left 200
    "a\n[PAUSE]\nb c".toList).2.1 1 (by decide)

/-! ### C8: note extraction scenario -/

theorem wrapWords_two (fm : Str → Nat) (sp_w : Nat) (mw : Int) (a : Align)
    (W : Int) (w1 w2 : Str) (L : List Str) (X : List (List (Str × Int)))
    (h : (fm w1 : Int) + (sp_w : Int) + (fm w2 : Int) ≤ mw) :
    wrapWords fm sp_w mw a W [w1, w2] [] 0 L X
      = (L ++ [w1 ++ ' ' :: w2], X ++ [wordXs fm sp_w a W [w1, w2]]) := by
  rw [wrapWords_cons_empty]
  rw [if_pos (by push_cast; omega)]
  rw [wrapWords_cons]
  have hc2 : ¬ (([w1] : List Str) = []) := by simp
  simp only [if_neg hc2]
  rw [if_pos (by push_cast; omega)]
  rw [wrapWords_nil]
  rw [if_neg (by simp)]
  simp only [List.cons_append, List.nil_append]
  rfl

/-- C8: for the script `"Note here [[remember this]]\nmore text"` (with the
viewport wide enough for each two-word paragraph), the built layout's note map
is exactly `{0: "remember this"}` — the note anchored to the first wrapped
DisplayLine of its paragraph, stripped of surrounding whitespace — and the
displayed lines are `"Note here"` (directive removed) and `"more text"`. -/
theorem note_extraction (fm : Str → Nat) (sp_w lh : Nat) (a : Align) (W : Int)
    (h1 : (fm "Note".toList : Int) + (sp_w : Int) + (fm "here".toList : Int) ≤ W - 80)
    (h2 : (fm "more".toList : Int) + (sp_w : Int) + (fm "text".toList : Int) ≤ W - 80) :
    (buildLayout fm sp_w lh a W "Note here [[remember this]]\nmore text".toList).notes
      = [(0, "remember this".toList)] ∧
    (buildLayout fm sp_w lh a W "Note here [[remember this]]\nmore text".toList).lines
      = ["Note here".toList, "more text".toList] := by
  have hsplit : splitNl "Note here [[remember this]]\nmore text".toList
      = ["Note here [[remember this]]".toList, "more text".toList] := by decide
  have hn1 : (noteSearch "Note here [[remember this]]".toList).map pystrip
      = some "remember this".toList := by decide
  have hp1 : pystrip (noteSub "Note here [[remember this]]".toList)
      = "Note here".toList := by decide
  have hw1 : pySplit "Note here".toList = ["Note".toList, "here".toList] := by decide
  have hj1 : "Note".toList ++ ' ' :: "here".toList = "Note here".toList := by decide
  have hn2 : (noteSearch "more text".toList).map pystrip = none := by decide
  have hp2 : pystrip (noteSub "more text".toList) = "more text".toList := by decide
  have hw2 : pySplit "more text".toList = ["more".toList, "text".toList] := by decide
  have hj2 : "more".toList ++ ' ' :: "text".toList = "more text".toList := by decide
  have hs1 : paraStep fm sp_w a W (W - 80)
      { lines := [], wxs := [], pauses := [], notes := [], total := 0 }
      "Note here [[remember this]]".toList
    = { lines := ["Note here".toList],
        wxs := [wordXs fm sp_w a W ["Note".toList, "here".toList]],
        pauses := [], notes := [(0, "remember this".toList)], total := 0 } := by
    simp only [paraStep]
    rw [hp1, hn1]
    rw [if_neg (by decide), if_neg (by decide)]
    rw [hw1]
    rw [wrapWords_two fm sp_w (W - 80) a W _ _ _ _ h1]
    rw [hj1]
    simp
  have hs2 : paraStep fm sp_w a W (W - 80)
      { lines := ["Note here".toList],
        wxs := [wordXs fm sp_w a W ["Note".toList, "here".toList]],
        pauses := [], notes := [(0, "remember this".toList)], total := 0 }
      "more text".toList
    = { lines := ["Note here".toList, "more text".toList],
        wxs := [wordXs fm sp_w a W ["Note".toList, "here".toList],
                wordXs fm sp_w a W ["more".toList, "text".toList]],
        pauses := [], notes := [(0, "remember this".toList)], total := 0 } := by
    simp only [paraStep]
    rw [hp2, hn2]
    rw [if_neg (by decide), if_neg (by decide)]
    rw [hw2]
    rw [wrapWords_two fm sp_w (W - 80) a W _ _ _ _ h2]
    rw [hj2]
    simp
  have hfold : (splitNl "Note here [[remember this]]\nmore text".toList).foldl
      (paraStep fm sp_w a W (W - 80))
      { lines := [], wxs := [], pauses := [], notes := [], total := 0 }
    = { lines := ["Note here".toList, "more text".toList],
        wxs := [wordXs fm sp_w a W ["Note".toList, "here".toList],
                wordXs fm sp_w a W ["more".toList, "text".toList]],
        pauses := [], notes := [(0, "remember this".toList)], total := 0 } := by
    rw [hsplit]
    simp only [List.foldl_cons, List.foldl_nil]
    rw [hs1, hs2]
  have hb : buildLayout fm sp_w lh a W "Note here [[remember this]]\nmore text".toList
    = { lines := ["Note here".toList, "more text".toList],
        wxs := [wordXs fm sp_w a W ["Note".toList, "here".toList],
                wordXs fm sp_w a W ["more".toList, "text".toList]],
        pauses := [], notes := [(0, "remember this".toList)],
        total := ((2 * lh : Nat) : ℚ) } := by
    simp only [buildLayout]
    rw [hfold]
    rfl
  rw [hb]
  exact ⟨rfl, rfl⟩

theorem note_extraction_witness :
    (buildLayout (fun w => 10 * w.length) 10 10 Align.left 920
      "Note here [[remember this]]\nmore text".toList).notes
      = [(0, "remember this".toList)] ∧
    (buildLayout (fun w => 10 * w.length) 10 10 Align.left 920
      "Note here [[remember this]]\nmore text".toList).lines
      = ["Note here".toList, "more text".toList] :=
  note_extraction (fun w => 10 * w.length) 10 10 Align.left 920
    (by decide) (by decide)
